import Mathlib

/-!
# Verification of the car-finder geometry core and position acquirer

Shallow embedding, over exact real arithmetic, of the GPS utility module
(`calculateDistance`, `calculateBearing`, `normalizeHeading`,
`calculateRelativeHeading`, `formatDistance`, `getCardinalDirection`), the
geolocation hook (`calculateSmoothedPosition`, `handleSuccess`,
`startTracking`, `stopTracking`, `getBestReading`) and the storage wrapper
(`getCarLocation`).  JavaScript numbers are modelled as real numbers;
`Math.atan2`, `Math.round`, the float remainder operator `%` and JS array
indexing are given explicit models below.
-/

open Real

open Classical in
/-- Model of JS `Math.atan2 y x` for finite arguments (signed zeros ignored):
the angle of the point `(x, y)` in `(-π, π]`. -/
noncomputable def atan2 (y x : ℝ) : ℝ :=
  if 0 < x then Real.arctan (y / x)
  else if x < 0 then
    (if 0 ≤ y then Real.arctan (y / x) + Real.pi else Real.arctan (y / x) - Real.pi)
  else
    (if 0 < y then Real.pi / 2 else if y < 0 then -(Real.pi / 2) else 0)

open Classical in
/-- Model of JS `Math.round x` for finite `x`: round half toward `+∞`. -/
noncomputable def jsRound (x : ℝ) : ℤ := ⌊x + 1 / 2⌋

open Classical in
/-- Truncation toward zero of a real number, as JS float-to-int truncation. -/
noncomputable def realTrunc (x : ℝ) : ℤ := if 0 ≤ x then ⌊x⌋ else ⌈x⌉

/-- Model of the JS float remainder `x % y` for finite `x` and nonzero `y`:
`x - y * trunc (x / y)` (result has the sign of the dividend). -/
noncomputable def jsFmod (x y : ℝ) : ℝ := x - y * realTrunc (x / y)

/-- Model of JS array indexing `arr[i]` on a string array: `undefined`
(modelled as `none`) when the index is negative or past the end. -/
def jsArrayGet (arr : List String) (i : ℤ) : Option String :=
  if 0 ≤ i then arr.get? i.toNat else none

/-- `Coordinates` from the GPS utility module: decimal degrees. -/
structure Coordinates where
  latitude : ℝ
  longitude : ℝ

/-- `EARTH_RADIUS_METERS` from the GPS utility module. -/
def EARTH_RADIUS_METERS : ℝ := 6371000

/-- `FEET_PER_METER` from the GPS utility module. -/
def FEET_PER_METER : ℝ := 3.28084

/-- `DISTANCE_THRESHOLD_FEET` from the GPS utility module. -/
def DISTANCE_THRESHOLD_FEET : ℝ := 1000

/-- The local `toRadians` helper used by `calculateDistance` and
`calculateBearing`: `degrees * (Math.PI / 180)`. -/
noncomputable def toRadians (degrees : ℝ) : ℝ := degrees * (Real.pi / 180)

/-- The local `toDegrees` helper used by `calculateBearing`:
`radians * (180 / Math.PI)`. -/
noncomputable def toDegrees (radians : ℝ) : ℝ := radians * (180 / Real.pi)

/-- The intermediate value `a` computed inside `calculateDistance`
(`sin²(Δlat/2) + cos lat1 · cos lat2 · sin²(Δlong/2)`), exposed as a
definition so that theorems can speak about the square-root arguments.
The source passes this value to `Math.sqrt(a)` and `Math.sqrt(1 - a)`
directly, with no clamping. -/
noncomputable def haversineA (point1 point2 : Coordinates) : ℝ :=
  let lat1Rad := toRadians point1.latitude
  let lat2Rad := toRadians point2.latitude
  let deltaLat := toRadians (point2.latitude - point1.latitude)
  let deltaLong := toRadians (point2.longitude - point1.longitude)
  Real.sin (deltaLat / 2) * Real.sin (deltaLat / 2) +
    Real.cos lat1Rad * Real.cos lat2Rad *
    Real.sin (deltaLong / 2) * Real.sin (deltaLong / 2)

/-- `calculateDistance` from the GPS utility module: haversine distance,
`c = 2 * Math.atan2(Math.sqrt(a), Math.sqrt(1 - a))`, result
`EARTH_RADIUS_METERS * c`. -/
noncomputable def calculateDistance (point1 point2 : Coordinates) : ℝ :=
  let a := haversineA point1 point2
  let c := 2 * atan2 (Real.sqrt a) (Real.sqrt (1 - a))
  EARTH_RADIUS_METERS * c

/-- `calculateBearing` from the GPS utility module.  Note the source calls
`Math.atan2(x, y)`, i.e. the x-component is passed as `atan2`'s first
(ordinate) argument.  The final line is the JS float remainder
`(bearing + 360) % 360`. -/
noncomputable def calculateBearing (fromCoord toCoord : Coordinates) : ℝ :=
  let lat1 := toRadians fromCoord.latitude
  let lat2 := toRadians toCoord.latitude
  let deltaLong := toRadians (toCoord.longitude - fromCoord.longitude)
  let x := Real.sin deltaLong * Real.cos lat2
  let y := Real.cos lat1 * Real.sin lat2 -
    Real.sin lat1 * Real.cos lat2 * Real.cos deltaLong
  let bearing := toDegrees (atan2 x y)
  jsFmod (bearing + 360) 360

open Classical in
/-- `normalizeHeading` from the GPS utility module:
`while (heading < 0) heading += 360; return heading % 360;`. -/
noncomputable def normalizeHeading (heading : ℝ) : ℝ :=
  if heading < 0 then normalizeHeading (heading + 360)
  else jsFmod heading 360
termination_by (⌈-heading / 360⌉).toNat
decreasing_by
  rename_i hneg
  have h1 : (0 : ℝ) < -heading / 360 := by
    apply div_pos (by linarith) (by norm_num)
  have h2 : ⌈-(heading + 360) / 360⌉ = ⌈-heading / 360⌉ - 1 := by
    rw [show -(heading + 360) / 360 = -heading / 360 - (1 : ℤ) by push_cast; ring]
    exact Int.ceil_sub_int _ 1
  have h3 : (0 : ℤ) < ⌈-heading / 360⌉ := Int.ceil_pos.mpr h1
  omega

/-- `calculateRelativeHeading` from the GPS utility module:
`normalizeHeading (bearing - deviceHeading)`. -/
noncomputable def calculateRelativeHeading (bearing deviceHeading : ℝ) : ℝ :=
  normalizeHeading (bearing - deviceHeading)

/-- Result of `formatDistance`.  The source renders the numeric value with
`Number.prototype.toLocaleString()`; we model the value as the integer that
is rendered, and the unit string verbatim. -/
structure FormattedDistance where
  value : ℤ
  unit : String
deriving Repr, DecidableEq

open Classical in
/-- `formatDistance` from the GPS utility module. -/
noncomputable def formatDistance (meters : ℝ) : FormattedDistance :=
  let feet := meters * FEET_PER_METER
  if feet < DISTANCE_THRESHOLD_FEET then
    { value := jsRound feet, unit := "ft" }
  else
    { value := jsRound (meters / 10) * 10, unit := "m" }

/-- The `directions` array of `getCardinalDirection`. -/
def directions : List String := ["N", "NE", "E", "SE", "S", "SW", "W", "NW"]

/-- `getCardinalDirection` from the GPS utility module:
`directions[Math.round(bearing / 45) % 8]`, where `%` on integer-valued JS
numbers is the truncated remainder and out-of-range indexing yields
`undefined` (modelled by `none`). -/
noncomputable def getCardinalDirection (bearing : ℝ) : Option String :=
  jsArrayGet directions (Int.tmod (jsRound (bearing / 45)) 8)

/-- `PositionReading` from the geolocation hook: a coordinate plus accuracy
(meters) and capture timestamp. -/
structure PositionReading where
  coords : Coordinates
  accuracy : ℝ
  timestamp : ℝ

/-- `BestReadingResult` from the geolocation hook. -/
structure BestReadingResult where
  coords : Coordinates
  accuracy : ℝ

/-- `POSITION_BUFFER_SIZE` from the geolocation hook. -/
def POSITION_BUFFER_SIZE : ℕ := 5

/-- `MOVEMENT_THRESHOLD_FACTOR` from the geolocation hook. -/
def MOVEMENT_THRESHOLD_FACTOR : ℝ := 0.5

/-- The smoothed value returned by `calculateSmoothedPosition`. -/
structure SmoothedPosition where
  coords : Coordinates
  accuracy : ℝ

/-- Accumulator of the loop inside `calculateSmoothedPosition`
(`totalWeight`, `weightedLat`, `weightedLng`, `bestAccuracy`).  The source
initializes `bestAccuracy = Infinity`; reals have no infinity, so the
initial value is modelled by `none` and `Math.min(Infinity, a) = a` by the
first match arm of `smoothStep`. -/
structure SmoothAcc where
  totalWeight : ℝ
  weightedLat : ℝ
  weightedLng : ℝ
  bestAccuracy : Option ℝ

/-- One iteration of the `for (const reading of buffer)` loop inside
`calculateSmoothedPosition`: `weight = 1 / reading.accuracy`. -/
noncomputable def smoothStep (acc : SmoothAcc) (reading : PositionReading) : SmoothAcc :=
  let weight := 1 / reading.accuracy
  { totalWeight := acc.totalWeight + weight
    weightedLat := acc.weightedLat + reading.coords.latitude * weight
    weightedLng := acc.weightedLng + reading.coords.longitude * weight
    bestAccuracy := some (match acc.bestAccuracy with
      | none => reading.accuracy
      | some b => min b reading.accuracy) }

open Classical in
/-- `calculateSmoothedPosition` from the geolocation hook: `null` on an
empty buffer, otherwise the `1/accuracy`-weighted mean coordinate and the
minimum buffered accuracy. -/
noncomputable def calculateSmoothedPosition
    (buffer : List PositionReading) : Option SmoothedPosition :=
  if buffer.length = 0 then none
  else
    let acc := buffer.foldl smoothStep ⟨0, 0, 0, none⟩
    some { coords := { latitude := acc.weightedLat / acc.totalWeight
                       longitude := acc.weightedLng / acc.totalWeight }
           accuracy := acc.bestAccuracy.getD 0 }

/-- The mutable state of one `useGeolocation` hook instance: the refs
(`watchIdRef`, `positionBufferRef`, `lastReportedPositionRef`) and the
React state cells (`position`, `accuracy`, `error`, `isTracking`,
`isLoading`). -/
structure HookState where
  watchId : Option ℕ
  positionBuffer : List PositionReading
  lastReportedPosition : Option Coordinates
  position : Option Coordinates
  accuracy : Option ℝ
  error : Option String
  isTracking : Bool
  isLoading : Bool

/-- The hook's initial state: all refs null, buffer empty, not tracking. -/
def initialHookState : HookState :=
  { watchId := none, positionBuffer := [], lastReportedPosition := none,
    position := none, accuracy := none, error := none,
    isTracking := false, isLoading := false }

/-- The buffer update at the top of `handleSuccess`: `push` the new
reading, then `shift()` (drop the oldest, i.e. the head) when the length
exceeds `POSITION_BUFFER_SIZE`. -/
def pushReading (buf : List PositionReading) (pos : PositionReading) : List PositionReading :=
  let pushed := buf ++ [pos]
  if POSITION_BUFFER_SIZE < pushed.length then pushed.tail else pushed

open Classical in
/-- `handleSuccess` from the geolocation hook: push the new reading into
the buffer (evicting the oldest when the buffer exceeds
`POSITION_BUFFER_SIZE`), recompute the smoothed position, and overwrite the
reported position only on the first reading or when the smoothed position
moved more than `pos.coords.accuracy * MOVEMENT_THRESHOLD_FACTOR` meters
away from the last reported position.  The early `if (!smoothed) return;`
leaves `error`/`isLoading` untouched. -/
noncomputable def handleSuccess (s : HookState) (pos : PositionReading) : HookState :=
  let buffer := pushReading s.positionBuffer pos
  match calculateSmoothedPosition buffer with
  | none => { s with positionBuffer := buffer }
  | some smoothed =>
    let movementThreshold := pos.accuracy * MOVEMENT_THRESHOLD_FACTOR
    let shouldUpdate :=
      match s.lastReportedPosition with
      | none => True
      | some lastPos => calculateDistance lastPos smoothed.coords > movementThreshold
    if shouldUpdate then
      { s with positionBuffer := buffer,
               position := some smoothed.coords,
               accuracy := some smoothed.accuracy,
               lastReportedPosition := some smoothed.coords,
               error := none, isLoading := false }
    else
      { s with positionBuffer := buffer, error := none, isLoading := false }

/-- `startTracking` from the geolocation hook, on the geolocation-supported
path: clears any existing watch (an external effect on the sensor), sets
the loading/tracking flags, clears the error, and records the id of the
newly created `watchPosition` subscription.  Note it does not touch
`positionBufferRef` or `lastReportedPositionRef`. -/
def startTracking (s : HookState) (newWatchId : ℕ) : HookState :=
  { s with isLoading := true, isTracking := true, error := none,
           watchId := some newWatchId }

/-- `stopTracking` from the geolocation hook: clears the watch when one is
active and resets the tracking/loading flags.  The buffer and the last
reported position are not touched. -/
def stopTracking (s : HookState) : HookState :=
  { s with watchId := none, isTracking := false, isLoading := false }

/-- Outcome of `getBestReading`: the resolved value and the hook's `error`
state after the call. -/
structure BestReadingOutcome where
  result : Option BestReadingResult
  error : Option String

open Classical in
/-- `getBestReading` from the geolocation hook, parametrized by the
outcomes of the `numSamples` sequential `getCurrentPosition` requests
(`some r` = sample succeeded with reading `r`, `none` = the sample's
promise rejected and the `catch` swallowed the failure).  Failed samples
are skipped; with no successful sample the call sets the error and
resolves with `null`; otherwise it resolves with the reading of smallest
accuracy, found by `readings.reduce((best, current) =>
current.accuracy < best.accuracy ? current : best)`. -/
noncomputable def getBestReading
    (samples : List (Option PositionReading)) : BestReadingOutcome :=
  let readings := samples.filterMap id
  match readings with
  | [] => { result := none, error := some "Failed to get any GPS readings." }
  | first :: rest =>
    let bestReading := rest.foldl
      (fun best current => if current.accuracy < best.accuracy then current else best)
      first
    { result := some { coords := bestReading.coords, accuracy := bestReading.accuracy }
      error := none }

/-- `SavedLocation` from the GPS utility module: coordinate plus save
timestamp and optional accuracy. -/
structure SavedLocation where
  latitude : ℝ
  longitude : ℝ
  timestamp : ℝ
  accuracy : Option ℝ

open Classical in
/-- `getCarLocation` from the storage wrapper.  `readResult` models
`localStorage.getItem(STORAGE_KEY)`: `.error ()` when storage access
throws, `.ok none` when no record is stored, `.ok (some data)` otherwise.
`parse` models `JSON.parse`, `.error ()` meaning it throws on malformed
JSON.  The JS conditional `data ? JSON.parse(data) : null` treats the
empty string as falsy; any exception is caught and `null` returned. -/
def getCarLocation (readResult : Except Unit (Option String))
    (parse : String → Except Unit SavedLocation) : Option SavedLocation :=
  match readResult with
  | .error _ => none
  | .ok none => none
  | .ok (some data) =>
    if data = "" then none
    else
      match parse data with
      | .error _ => none
      | .ok loc => some loc

/-- Gating hypothesis for a whole delivery sequence: starting from buffer
`buf`, every incoming fix in the sequence yields a smoothed position whose
distance from the fixed reference `p` stays within that fix's
`accuracy * MOVEMENT_THRESHOLD_FACTOR`. -/
def withinGate (p : Coordinates) : List PositionReading → List PositionReading → Prop
  | _, [] => True
  | buf, pos :: rest =>
    (∀ sm, calculateSmoothedPosition (pushReading buf pos) = some sm →
      calculateDistance p sm.coords ≤ pos.accuracy * MOVEMENT_THRESHOLD_FACTOR) ∧
    withinGate p (pushReading buf pos) rest

theorem jsFmod_360_nonneg {x : ℝ} (hx : 0 ≤ x) : 0 ≤ jsFmod x 360 := by
  have hdiv : (0 : ℝ) ≤ x / 360 := by positivity
  have hfl : (⌊x / 360⌋ : ℝ) ≤ x / 360 := Int.floor_le _
  simp only [jsFmod, realTrunc, if_pos hdiv]
  linarith

theorem jsFmod_360_lt {x : ℝ} (hx : 0 ≤ x) : jsFmod x 360 < 360 := by
  have hdiv : (0 : ℝ) ≤ x / 360 := by positivity
  have hfl : x / 360 < ⌊x / 360⌋ + 1 := Int.lt_floor_add_one _
  simp only [jsFmod, realTrunc, if_pos hdiv]
  linarith

theorem normalizeHeading_eq (h : ℝ) :
    normalizeHeading h = 360 * Int.fract (h / 360) := by
  generalize hn : (⌈-h / 360⌉).toNat = n
  induction n generalizing h with
  | zero =>
    have hpos : ¬ h < 0 := by
      intro hneg
      have h1 : (0 : ℝ) < -h / 360 := div_pos (by linarith) (by norm_num)
      have h2 : (0 : ℤ) < ⌈-h / 360⌉ := Int.ceil_pos.mpr h1
      omega
    have h0 : (0 : ℝ) ≤ h := not_lt.mp hpos
    have hdiv : (0 : ℝ) ≤ h / 360 := by positivity
    rw [normalizeHeading, if_neg hpos]
    simp only [jsFmod, realTrunc, if_pos hdiv, Int.fract]
    ring
  | succ n ih =>
    have hneg : h < 0 := by
      by_contra hge
      have h0 : (0 : ℝ) ≤ h := not_lt.mp hge
      have hle : -h / 360 ≤ (0 : ℝ) := by
        rw [neg_div]
        exact neg_nonpos.mpr (div_nonneg h0 (by norm_num))
      have : ⌈-h / 360⌉ ≤ 0 := by
        exact_mod_cast Int.ceil_le.mpr (by exact_mod_cast hle)
      omega
    rw [normalizeHeading, if_pos hneg]
    have hmeas : (⌈-(h + 360) / 360⌉).toNat = n := by
      have h2 : ⌈-(h + 360) / 360⌉ = ⌈-h / 360⌉ - 1 := by
        rw [show -(h + 360) / 360 = -h / 360 - ((1 : ℤ) : ℝ) by push_cast; ring]
        exact Int.ceil_sub_int _ 1
      have h1 : (0 : ℝ) < -h / 360 := div_pos (by linarith) (by norm_num)
      have h3 : (0 : ℤ) < ⌈-h / 360⌉ := Int.ceil_pos.mpr h1
      omega
    rw [ih _ hmeas]
    have hshift : (h + 360) / 360 = h / 360 + ((1 : ℤ) : ℝ) := by
      field_simp
    rw [hshift, Int.fract_add_int]

theorem normalizeHeading_nonneg (h : ℝ) : 0 ≤ normalizeHeading h := by
  rw [normalizeHeading_eq]
  exact mul_nonneg (by norm_num) (Int.fract_nonneg _)

theorem normalizeHeading_lt_360 (h : ℝ) : normalizeHeading h < 360 := by
  rw [normalizeHeading_eq]
  have := Int.fract_lt_one (h / 360)
  nlinarith [Int.fract_nonneg (h / 360)]

theorem arctan_nonneg_of_nonneg {x : ℝ} (hx : 0 ≤ x) : 0 ≤ Real.arctan x := by
  rw [← Real.arctan_zero]
  exact Real.arctan_strictMono.monotone hx

theorem arctan_pos_of_pos {x : ℝ} (hx : 0 < x) : 0 < Real.arctan x := by
  rw [← Real.arctan_zero]
  exact Real.arctan_strictMono hx

theorem neg_pi_lt_atan2 (y x : ℝ) : -Real.pi < atan2 y x := by
  have hπ := Real.pi_pos
  unfold atan2
  split_ifs with h1 h2 h3 h4 h5
  · have := Real.neg_pi_div_two_lt_arctan (y / x)
    linarith
  · have := Real.neg_pi_div_two_lt_arctan (y / x)
    linarith
  · have hy : y < 0 := not_le.mp h3
    have hyx : 0 < y / x := div_pos_of_neg_of_neg hy h2
    have := arctan_pos_of_pos hyx
    linarith
  · linarith
  · linarith
  · linarith

theorem atan2_nonneg {y x : ℝ} (hy : 0 ≤ y) (hx : 0 ≤ x) : 0 ≤ atan2 y x := by
  have hπ := Real.pi_pos
  unfold atan2
  split_ifs with h1 h2 h3 h4
  all_goals first
    | exact arctan_nonneg_of_nonneg (div_nonneg hy h1.le)
    | linarith

theorem jsFmod_toDegrees_atan2_mem (y x : ℝ) :
    0 ≤ jsFmod (toDegrees (atan2 y x) + 360) 360 ∧
      jsFmod (toDegrees (atan2 y x) + 360) 360 < 360 := by
  have hπ := Real.pi_pos
  have h1 : -Real.pi < atan2 y x := neg_pi_lt_atan2 y x
  have harg : 0 ≤ toDegrees (atan2 y x) + 360 := by
    unfold toDegrees
    have h180π : (0 : ℝ) < 180 / Real.pi := by positivity
    have hmul : (-Real.pi) * (180 / Real.pi) < atan2 y x * (180 / Real.pi) :=
      mul_lt_mul_of_pos_right h1 h180π
    have hval : (-Real.pi) * (180 / Real.pi) = -180 := by
      field_simp
      ring
    linarith
  exact ⟨jsFmod_360_nonneg harg, jsFmod_360_lt harg⟩

/-- C7: every angle-producing operation — `calculateBearing`,
`normalizeHeading`, `calculateRelativeHeading` — returns a value in the
half-open range `[0, 360)` for every input; in particular
`calculateBearing a a` on identical endpoints is well defined and its
result lies in `[0, 360)`. -/
theorem angle_ops_mem_Ico :
    (∀ a b : Coordinates, 0 ≤ calculateBearing a b ∧ calculateBearing a b < 360) ∧
    (∀ h : ℝ, 0 ≤ normalizeHeading h ∧ normalizeHeading h < 360) ∧
    (∀ b d : ℝ,
      0 ≤ calculateRelativeHeading b d ∧ calculateRelativeHeading b d < 360) ∧
    (∀ a : Coordinates, 0 ≤ calculateBearing a a ∧ calculateBearing a a < 360) := by
  have hb : ∀ a b : Coordinates,
      0 ≤ calculateBearing a b ∧ calculateBearing a b < 360 := by
    intro a b
    unfold calculateBearing
    exact jsFmod_toDegrees_atan2_mem _ _
  refine ⟨hb, ?_, ?_, fun a => hb a a⟩
  · exact fun h => ⟨normalizeHeading_nonneg h, normalizeHeading_lt_360 h⟩
  · intro b d
    unfold calculateRelativeHeading
    exact ⟨normalizeHeading_nonneg _, normalizeHeading_lt_360 _⟩

/-- C8: `normalizeHeading` is idempotent and 360-periodic — for every real
`x` and every integer `k`, `normalize (normalize x) = normalize x` and
`normalize (x + 360 * k) = normalize x`, however many wraps are needed. -/
theorem normalizeHeading_idempotent_periodic :
    (∀ x : ℝ, normalizeHeading (normalizeHeading x) = normalizeHeading x) ∧
    ∀ (x : ℝ) (k : ℤ), normalizeHeading (x + 360 * k) = normalizeHeading x := by
  constructor
  · intro x
    rw [normalizeHeading_eq (normalizeHeading x), normalizeHeading_eq x,
      mul_div_cancel_left₀ _ (by norm_num : (360 : ℝ) ≠ 0), Int.fract_fract]
  · intro x k
    rw [normalizeHeading_eq, normalizeHeading_eq]
    congr 1
    rw [show (x + 360 * k) / 360 = x / 360 + (k : ℝ) by field_simp; ring,
      show (k : ℝ) = ((k : ℤ) : ℝ) by norm_cast, Int.fract_add_int]

theorem weighted_cos_bound (s1 c1 s2 c2 d : ℝ) (h1 : s1 ^ 2 + c1 ^ 2 = 1)
    (h2 : s2 ^ 2 + c2 ^ 2 = 1) (hd1 : -1 ≤ d) (hd2 : d ≤ 1) :
    -1 ≤ s1 * s2 + c1 * c2 * d ∧ s1 * s2 + c1 * c2 * d ≤ 1 := by
  constructor
  · nlinarith [sq_nonneg (s1 + s2),
      mul_nonneg (sq_nonneg (c1 + c2)) (by linarith : (0 : ℝ) ≤ 1 + d),
      mul_nonneg (sq_nonneg (c1 - c2)) (by linarith : (0 : ℝ) ≤ 1 - d)]
  · nlinarith [sq_nonneg (s1 - s2),
      mul_nonneg (sq_nonneg (c1 - c2)) (by linarith : (0 : ℝ) ≤ 1 + d),
      mul_nonneg (sq_nonneg (c1 + c2)) (by linarith : (0 : ℝ) ≤ 1 - d)]

theorem sin_half_mul_self (t : ℝ) :
    Real.sin (t / 2) * Real.sin (t / 2) = 1 / 2 - Real.cos t / 2 := by
  have h := Real.sin_sq_eq_half_sub (t / 2)
  rw [pow_two, show 2 * (t / 2) = t by ring] at h
  exact h

theorem haversineA_eq (p q : Coordinates) :
    haversineA p q =
      (1 - (Real.sin (toRadians p.latitude) * Real.sin (toRadians q.latitude) +
        Real.cos (toRadians p.latitude) * Real.cos (toRadians q.latitude) *
          Real.cos (toRadians (q.longitude - p.longitude)))) / 2 := by
  simp only [haversineA]
  have hd : toRadians (q.latitude - p.latitude) =
      toRadians q.latitude - toRadians p.latitude := by
    unfold toRadians; ring
  rw [hd]
  have hA := sin_half_mul_self (toRadians q.latitude - toRadians p.latitude)
  have hB := sin_half_mul_self (toRadians (q.longitude - p.longitude))
  have hC := Real.cos_sub (toRadians q.latitude) (toRadians p.latitude)
  linear_combination hA +
    Real.cos (toRadians p.latitude) * Real.cos (toRadians q.latitude) * hB - hC / 2

theorem haversineA_mem (p q : Coordinates) :
    0 ≤ haversineA p q ∧ haversineA p q ≤ 1 := by
  rw [haversineA_eq]
  obtain ⟨hl, hr⟩ := weighted_cos_bound (Real.sin (toRadians p.latitude))
    (Real.cos (toRadians p.latitude)) (Real.sin (toRadians q.latitude))
    (Real.cos (toRadians q.latitude)) (Real.cos (toRadians (q.longitude - p.longitude)))
    (Real.sin_sq_add_cos_sq _) (Real.sin_sq_add_cos_sq _)
    (Real.neg_one_le_cos _) (Real.cos_le_one _)
  constructor <;> linarith

/-- C1: in the exact-real model of `calculateDistance`, the value `a`
passed unclamped to both square roots provably lies in `[0, 1]` for all
real coordinates, and the returned distance is non-negative; the clamping
step asserted by the claim is absent from the code, a hazard only under
floating-point rounding (see the results record). -/
theorem haversine_sqrt_args_in_range :
    ∀ p q : Coordinates,
      (0 ≤ haversineA p q ∧ haversineA p q ≤ 1) ∧ 0 ≤ calculateDistance p q := by
  intro p q
  refine ⟨haversineA_mem p q, ?_⟩
  unfold calculateDistance
  have h := atan2_nonneg (Real.sqrt_nonneg (haversineA p q))
    (Real.sqrt_nonneg (1 - haversineA p q))
  have hR : (0 : ℝ) ≤ EARTH_RADIUS_METERS := by unfold EARTH_RADIUS_METERS; norm_num
  exact mul_nonneg hR (by linarith)

theorem calculateDistance_self (p : Coordinates) : calculateDistance p p = 0 := by
  have ha : haversineA p p = 0 := by
    simp only [haversineA, toRadians, sub_self, zero_mul, zero_div, Real.sin_zero]
    ring
  simp only [calculateDistance]
  rw [ha]
  rw [show (1 : ℝ) - 0 = 1 by norm_num, Real.sqrt_zero, Real.sqrt_one]
  unfold atan2
  rw [if_pos (by norm_num : (0 : ℝ) < 1)]
  norm_num [Real.arctan_zero]

theorem calculateDistance_equator {lng : ℝ} (h0 : 0 ≤ lng) (h1 : lng < 180) :
    calculateDistance ⟨0, 0⟩ ⟨0, lng⟩ = EARTH_RADIUS_METERS * toRadians lng := by
  have hπ := Real.pi_pos
  have ht0 : 0 ≤ toRadians lng := by
    unfold toRadians; positivity
  have htpi : toRadians lng < Real.pi := by
    unfold toRadians
    have := mul_lt_mul_of_pos_right h1 (by positivity : (0 : ℝ) < Real.pi / 180)
    calc lng * (Real.pi / 180) < 180 * (Real.pi / 180) := this
      _ = Real.pi := by field_simp
  set t := toRadians lng with ht
  have ha : haversineA ⟨0, 0⟩ ⟨0, lng⟩ = Real.sin (t / 2) * Real.sin (t / 2) := by
    simp only [haversineA, toRadians, ht]
    norm_num
  have hsinnn : 0 ≤ Real.sin (t / 2) :=
    Real.sin_nonneg_of_nonneg_of_le_pi (by linarith) (by linarith)
  have hcospos : 0 < Real.cos (t / 2) :=
    Real.cos_pos_of_mem_Ioo ⟨by linarith, by linarith⟩
  have hsqrt1 : Real.sqrt (haversineA ⟨0, 0⟩ ⟨0, lng⟩) = Real.sin (t / 2) := by
    rw [ha, show Real.sin (t / 2) * Real.sin (t / 2) = Real.sin (t / 2) ^ 2 by ring]
    exact Real.sqrt_sq hsinnn
  have hsqrt2 : Real.sqrt (1 - haversineA ⟨0, 0⟩ ⟨0, lng⟩) = Real.cos (t / 2) := by
    have hc : 1 - haversineA ⟨0, 0⟩ ⟨0, lng⟩ = Real.cos (t / 2) ^ 2 := by
      rw [ha]
      linear_combination -Real.sin_sq_add_cos_sq (t / 2)
    rw [hc]
    exact Real.sqrt_sq hcospos.le
  have hat : atan2 (Real.sin (t / 2)) (Real.cos (t / 2)) = t / 2 := by
    unfold atan2
    rw [if_pos hcospos, ← Real.tan_eq_sin_div_cos]
    exact Real.arctan_tan (by linarith) (by linarith)
  simp only [calculateDistance]
  rw [hsqrt1, hsqrt2, hat]
  ring

theorem calculateDistance_half_degree_gt :
    calculateDistance ⟨0, 0⟩ ⟨0, 1 / 2⟩ > 1 * MOVEMENT_THRESHOLD_FACTOR := by
  rw [calculateDistance_equator (by norm_num) (by norm_num)]
  unfold EARTH_RADIUS_METERS toRadians MOVEMENT_THRESHOLD_FACTOR
  nlinarith [Real.pi_gt_three]

theorem cardinal_of_round {b : ℝ} (k : ℤ) (hlo : (k : ℝ) - 1 / 2 ≤ b / 45)
    (hhi : b / 45 < (k : ℝ) + 1 / 2) :
    getCardinalDirection b = jsArrayGet directions (Int.tmod k 8) := by
  unfold getCardinalDirection
  have hk : jsRound (b / 45) = k := by
    unfold jsRound
    rw [Int.floor_eq_iff]
    constructor <;> linarith
  rw [hk]

/-- C2 counterexample: on the code, `getCardinalDirection 44` is `"NE"`,
not `"N"` as the claim states — 44° is past the 22.5° sector boundary, so
`Math.round(44 / 45) = 1` indexes `"NE"`. -/
theorem getCardinalDirection_44_ne_N :
    getCardinalDirection 44 = some "NE" ∧ getCardinalDirection 44 ≠ some "N" := by
  have h : getCardinalDirection 44 = some "NE" := by
    rw [cardinal_of_round 1 (by norm_num) (by norm_num)]
    decide
  refine ⟨h, ?_⟩
  rw [h]
  decide

/-- C2 (amended): `getCardinalDirection` maps a bearing in `[0, 360)` to
one of the 8 labels by `round(bearing / 45) mod 8`, sector boundaries at
odd multiples of 22.5°; `cardinal 0 = "N"`, `cardinal 90 = "E"`,
`cardinal 44 = "NE"` (not `"N"`), `cardinal 46 = "NE"`. -/
theorem getCardinalDirection_sectors :
    (∀ b : ℝ, 0 ≤ b → b < 360 →
      getCardinalDirection b = some (
        if b < 22.5 then "N" else if b < 67.5 then "NE" else if b < 112.5 then "E"
        else if b < 157.5 then "SE" else if b < 202.5 then "S"
        else if b < 247.5 then "SW" else if b < 292.5 then "W"
        else if b < 337.5 then "NW" else "N")) ∧
    getCardinalDirection 0 = some "N" ∧ getCardinalDirection 90 = some "E" ∧
    getCardinalDirection 44 = some "NE" ∧ getCardinalDirection 46 = some "NE" := by
  have hmain : ∀ b : ℝ, 0 ≤ b → b < 360 →
      getCardinalDirection b = some (
        if b < 22.5 then "N" else if b < 67.5 then "NE" else if b < 112.5 then "E"
        else if b < 157.5 then "SE" else if b < 202.5 then "S"
        else if b < 247.5 then "SW" else if b < 292.5 then "W"
        else if b < 337.5 then "NW" else "N") := by
    intro b hb0 hb360
    by_cases h1 : b < 22.5
    · rw [if_pos h1, cardinal_of_round 0 (by push_cast; linarith) (by push_cast; linarith)]
      decide
    · rw [if_neg h1]
      by_cases h2 : b < 67.5
      · rw [if_pos h2, cardinal_of_round 1 (by push_cast; linarith) (by push_cast; linarith)]
        decide
      · rw [if_neg h2]
        by_cases h3 : b < 112.5
        · rw [if_pos h3, cardinal_of_round 2 (by push_cast; linarith) (by push_cast; linarith)]
          decide
        · rw [if_neg h3]
          by_cases h4 : b < 157.5
          · rw [if_pos h4, cardinal_of_round 3 (by push_cast; linarith) (by push_cast; linarith)]
            decide
          · rw [if_neg h4]
            by_cases h5 : b < 202.5
            · rw [if_pos h5, cardinal_of_round 4 (by push_cast; linarith) (by push_cast; linarith)]
              decide
            · rw [if_neg h5]
              by_cases h6 : b < 247.5
              · rw [if_pos h6, cardinal_of_round 5 (by push_cast; linarith) (by push_cast; linarith)]
                decide
              · rw [if_neg h6]
                by_cases h7 : b < 292.5
                · rw [if_pos h7, cardinal_of_round 6 (by push_cast; linarith) (by push_cast; linarith)]
                  decide
                · rw [if_neg h7]
                  by_cases h8 : b < 337.5
                  · rw [if_pos h8, cardinal_of_round 7 (by push_cast; linarith) (by push_cast; linarith)]
                    decide
                  · rw [if_neg h8, cardinal_of_round 8 (by push_cast; linarith) (by push_cast; linarith)]
                    decide
  refine ⟨hmain, ?_, ?_, ?_, ?_⟩
  · have h := hmain 0 (by norm_num) (by norm_num)
    norm_num at h
    exact h
  · have h := hmain 90 (by norm_num) (by norm_num)
    norm_num at h
    exact h
  · have h := hmain 44 (by norm_num) (by norm_num)
    norm_num at h
    exact h
  · have h := hmain 46 (by norm_num) (by norm_num)
    norm_num at h
    exact h

/-- C2 witness: the sector characterization applied at the concrete
bearing 200° yields the label `"S"`. -/
theorem getCardinalDirection_sectors_witness : getCardinalDirection 200 = some "S" := by
  have h := getCardinalDirection_sectors.1 200 (by norm_num) (by norm_num)
  norm_num at h
  exact h

theorem jsRound_eq {x : ℝ} (k : ℤ) (hlo : (k : ℝ) ≤ x + 1 / 2)
    (hhi : x + 1 / 2 < (k : ℝ) + 1) : jsRound x = k := by
  unfold jsRound
  rw [Int.floor_eq_iff]
  exact ⟨hlo, by linarith⟩

/-- C6: for non-negative meters, `formatDistance` converts to feet; when
the feet value is strictly below 1000 it returns the rounded whole feet
with unit `"ft"`, otherwise the meters branch applies, rounding via
`round(m / 10) * 10` with unit `"m"`. -/
theorem formatDistance_spec :
    ∀ m : ℝ, 0 ≤ m →
      (m * FEET_PER_METER < 1000 →
        formatDistance m = ⟨jsRound (m * FEET_PER_METER), "ft"⟩) ∧
      (1000 ≤ m * FEET_PER_METER →
        formatDistance m = ⟨jsRound (m / 10) * 10, "m"⟩) := by
  intro m _
  constructor
  · intro hf
    simp only [formatDistance]
    rw [if_pos (show m * FEET_PER_METER < DISTANCE_THRESHOLD_FEET from hf)]
  · intro hf
    simp only [formatDistance]
    rw [if_neg (show ¬ m * FEET_PER_METER < DISTANCE_THRESHOLD_FEET from not_lt.mpr hf)]

/-- C6 witness: an input of exactly 999 ft formats as `999 ft`, and 305 m
(≈ 1000.66 ft) takes the meters branch and formats as `310 m`. -/
theorem formatDistance_spec_witness :
    formatDistance (999 / FEET_PER_METER) = ⟨999, "ft"⟩ ∧
    formatDistance 305 = ⟨310, "m"⟩ := by
  constructor
  · have hfeet : 999 / FEET_PER_METER * FEET_PER_METER = 999 := by
      unfold FEET_PER_METER
      norm_num
    have hm : (0 : ℝ) ≤ 999 / FEET_PER_METER := by
      unfold FEET_PER_METER
      positivity
    have h := (formatDistance_spec (999 / FEET_PER_METER) hm).1 (by rw [hfeet]; norm_num)
    rw [h, hfeet, jsRound_eq 999 (by norm_num) (by norm_num)]
  · have h := (formatDistance_spec 305 (by norm_num)).2 (by unfold FEET_PER_METER; norm_num)
    rw [h, show (305 : ℝ) / 10 = 30.5 by norm_num, jsRound_eq 31 (by norm_num) (by norm_num)]
    decide

/-- C9: reading the persisted car location never raises a fault: a throwing
storage read, an absent record, and a `JSON.parse` failure all yield
`null`, and a successful parse yields the parsed location. -/
theorem getCarLocation_never_faults :
    (∀ parse : String → Except Unit SavedLocation,
      getCarLocation (Except.error ()) parse = none) ∧
    (∀ parse : String → Except Unit SavedLocation,
      getCarLocation (Except.ok none) parse = none) ∧
    (∀ (s : String) (parse : String → Except Unit SavedLocation),
      parse s = Except.error () → getCarLocation (Except.ok (some s)) parse = none) ∧
    (∀ (s : String) (parse : String → Except Unit SavedLocation) (loc : SavedLocation),
      s ≠ "" → parse s = Except.ok loc →
      getCarLocation (Except.ok (some s)) parse = some loc) := by
  refine ⟨fun _ => rfl, fun _ => rfl, ?_, ?_⟩
  · intro s parse hp
    simp only [getCarLocation]
    by_cases hs : s = ""
    · rw [if_pos hs]
    · rw [if_neg hs, hp]
  · intro s parse loc hs hp
    simp only [getCarLocation]
    rw [if_neg hs, hp]

/-- C9 witness: a storage record that fails to parse yields `none`; a
well-formed record yields the parsed location. -/
theorem getCarLocation_never_faults_witness :
    getCarLocation (Except.ok (some "not json")) (fun _ => Except.error ()) = none ∧
    getCarLocation (Except.ok (some "x"))
      (fun _ => Except.ok ⟨1, 2, 3, none⟩) = some ⟨1, 2, 3, none⟩ := by
  constructor
  · exact getCarLocation_never_faults.2.2.1 "not json" _ rfl
  · exact getCarLocation_never_faults.2.2.2 "x" _ ⟨1, 2, 3, none⟩ (by decide) rfl

theorem foldl_best_spec (first : PositionReading) (rest : List PositionReading) :
    (rest.foldl (fun best current =>
        if current.accuracy < best.accuracy then current else best) first = first ∨
      rest.foldl (fun best current =>
        if current.accuracy < best.accuracy then current else best) first ∈ rest) ∧
    (rest.foldl (fun best current =>
        if current.accuracy < best.accuracy then current else best) first).accuracy ≤
      first.accuracy ∧
    ∀ p ∈ rest,
      (rest.foldl (fun best current =>
        if current.accuracy < best.accuracy then current else best) first).accuracy ≤
      p.accuracy := by
  induction rest generalizing first with
  | nil => exact ⟨Or.inl rfl, le_refl _, by simp⟩
  | cons c cs ih =>
    simp only [List.foldl_cons]
    by_cases hc : c.accuracy < first.accuracy
    · rw [if_pos hc]
      obtain ⟨hmem, hle, hall⟩ := ih c
      refine ⟨?_, by linarith, ?_⟩
      · rcases hmem with h | h
        · right
          rw [h]
          exact List.mem_cons_self _ _
        · right
          exact List.mem_cons_of_mem _ h
      · intro p hp
        rcases List.mem_cons.mp hp with h | h
        · rw [h]
          exact hle
        · exact hall p h
    · rw [if_neg hc]
      push_neg at hc
      obtain ⟨hmem, hle, hall⟩ := ih first
      refine ⟨?_, hle, ?_⟩
      · rcases hmem with h | h
        · left
          exact h
        · right
          exact List.mem_cons_of_mem _ h
      · intro p hp
        rcases List.mem_cons.mp hp with h | h
        · rw [h]
          linarith
        · exact hall p h

/-- C5: `getBestReading` resolves with `null` and reports the acquisition
error exactly when every sample failed; otherwise it resolves with a
succeeded sample whose accuracy is minimal among the succeeded samples. -/
theorem getBestReading_spec :
    ∀ samples : List (Option PositionReading),
      ((getBestReading samples).result = none ↔ ∀ s ∈ samples, s = none) ∧
      ((getBestReading samples).error = some "Failed to get any GPS readings." ↔
        ∀ s ∈ samples, s = none) ∧
      ∀ r, (getBestReading samples).result = some r →
        (∃ p ∈ samples.filterMap id, p.coords = r.coords ∧ p.accuracy = r.accuracy) ∧
        ∀ p ∈ samples.filterMap id, r.accuracy ≤ p.accuracy := by
  intro samples
  have hnil : samples.filterMap id = [] ↔ ∀ s ∈ samples, s = none := by
    rw [List.filterMap_eq_nil_iff]
    simp
  cases hcase : samples.filterMap id with
  | nil =>
    have hall : ∀ s ∈ samples, s = none := hnil.mp hcase
    have hgb : getBestReading samples =
        ⟨none, some "Failed to get any GPS readings."⟩ := by
      simp only [getBestReading, hcase]
    rw [hgb]
    refine ⟨by simpa using hall, by simpa using hall, ?_⟩
    intro r hr
    simp at hr
  | cons first rest =>
    have hnotall : ¬ ∀ s ∈ samples, s = none := by
      intro hall
      have h := hnil.mpr hall
      rw [hcase] at h
      exact List.cons_ne_nil _ _ h
    have hgb : getBestReading samples =
        ⟨some ⟨(rest.foldl (fun best current =>
            if current.accuracy < best.accuracy then current else best) first).coords,
          (rest.foldl (fun best current =>
            if current.accuracy < best.accuracy then current else best) first).accuracy⟩,
          none⟩ := by
      simp only [getBestReading, hcase]
    rw [hgb]
    refine ⟨⟨fun h => by simp at h, fun h => absurd h hnotall⟩,
      ⟨fun h => by simp at h, fun h => absurd h hnotall⟩, ?_⟩
    intro r hr
    simp only [Option.some.injEq] at hr
    obtain ⟨hmem, hle, hall⟩ := foldl_best_spec first rest
    subst hr
    constructor
    · refine ⟨rest.foldl (fun best current =>
        if current.accuracy < best.accuracy then current else best) first, ?_, rfl, rfl⟩
      rcases hmem with h | h
      · rw [h]
        exact List.mem_cons_self _ _
      · exact List.mem_cons_of_mem _ h
    · intro p hp
      rcases List.mem_cons.mp hp with h | h
      · rw [h]
        exact hle
      · exact hall p h

/-- C5 witness: for three successful samples with accuracies `[20, 5, 15]`,
the resolved reading is the one with accuracy 5, and 5 is minimal among
the succeeded samples. -/
theorem getBestReading_spec_witness :
    (getBestReading [some ⟨⟨1, 1⟩, 20, 0⟩, some ⟨⟨2, 2⟩, 5, 0⟩,
        some ⟨⟨3, 3⟩, 15, 0⟩]).result = some ⟨⟨2, 2⟩, 5⟩ ∧
    ∀ p ∈ ([some ⟨⟨1, 1⟩, 20, 0⟩, some ⟨⟨2, 2⟩, 5, 0⟩,
        some ⟨⟨3, 3⟩, 15, 0⟩] : List (Option PositionReading)).filterMap id,
      (5 : ℝ) ≤ p.accuracy := by
  have heval : (getBestReading [some ⟨⟨1, 1⟩, 20, 0⟩, some ⟨⟨2, 2⟩, 5, 0⟩,
      some ⟨⟨3, 3⟩, 15, 0⟩]).result = some ⟨⟨2, 2⟩, 5⟩ := by
    norm_num [getBestReading, List.filterMap_cons, List.foldl_cons, List.foldl_nil]
  refine ⟨heval, ?_⟩
  have h := (getBestReading_spec [some ⟨⟨1, 1⟩, 20, 0⟩, some ⟨⟨2, 2⟩, 5, 0⟩,
    some ⟨⟨3, 3⟩, 15, 0⟩]).2.2 ⟨⟨2, 2⟩, 5⟩ heval
  intro p hp
  exact h.2 p hp

theorem foldl_smoothStep_fields (buffer : List PositionReading) :
    ∀ init : SmoothAcc,
      (buffer.foldl smoothStep init).totalWeight =
        init.totalWeight + (buffer.map (fun r => 1 / r.accuracy)).sum ∧
      (buffer.foldl smoothStep init).weightedLat =
        init.weightedLat +
          (buffer.map (fun r => r.coords.latitude * (1 / r.accuracy))).sum ∧
      (buffer.foldl smoothStep init).weightedLng =
        init.weightedLng +
          (buffer.map (fun r => r.coords.longitude * (1 / r.accuracy))).sum := by
  induction buffer with
  | nil => intro init; simp
  | cons r rs ih =>
    intro init
    obtain ⟨h1, h2, h3⟩ := ih (smoothStep init r)
    simp only [List.foldl_cons, List.map_cons, List.sum_cons]
    refine ⟨?_, ?_, ?_⟩
    · rw [h1]
      simp only [smoothStep]
      ring
    · rw [h2]
      simp only [smoothStep]
      ring
    · rw [h3]
      simp only [smoothStep]
      ring

theorem sum_weights_pos (buffer : List PositionReading) (hne : buffer ≠ [])
    (hacc : ∀ r ∈ buffer, 0 < r.accuracy) :
    0 < (buffer.map (fun r => 1 / r.accuracy)).sum := by
  induction buffer with
  | nil => exact absurd rfl hne
  | cons r rs ih =>
    simp only [List.map_cons, List.sum_cons]
    have hr : 0 < 1 / r.accuracy :=
      one_div_pos.mpr (hacc r (List.mem_cons_self _ _))
    rcases List.eq_nil_or_concat rs with h | _
    case inl =>
      subst h
      simpa using hr
    case inr =>
      have hrs : 0 ≤ (rs.map (fun r => 1 / r.accuracy)).sum := by
        apply List.sum_nonneg
        intro x hx
        simp only [List.mem_map] at hx
        obtain ⟨p, hp, hpx⟩ := hx
        rw [← hpx]
        exact le_of_lt (one_div_pos.mpr (hacc p (List.mem_cons_of_mem _ hp)))
      linarith

theorem weighted_sum_bounds (proj : PositionReading → ℝ) (lo hi : ℝ)
    (buffer : List PositionReading) (hacc : ∀ r ∈ buffer, 0 < r.accuracy)
    (hbound : ∀ r ∈ buffer, lo ≤ proj r ∧ proj r ≤ hi) :
    lo * (buffer.map (fun r => 1 / r.accuracy)).sum ≤
      (buffer.map (fun r => proj r * (1 / r.accuracy))).sum ∧
    (buffer.map (fun r => proj r * (1 / r.accuracy))).sum ≤
      hi * (buffer.map (fun r => 1 / r.accuracy)).sum := by
  induction buffer with
  | nil => simp
  | cons r rs ih =>
    have hr : 0 < 1 / r.accuracy :=
      one_div_pos.mpr (hacc r (List.mem_cons_self _ _))
    obtain ⟨hlo, hhi⟩ := hbound r (List.mem_cons_self _ _)
    obtain ⟨ih1, ih2⟩ := ih (fun p hp => hacc p (List.mem_cons_of_mem _ hp))
      (fun p hp => hbound p (List.mem_cons_of_mem _ hp))
    simp only [List.map_cons, List.sum_cons]
    constructor
    · have : lo * (1 / r.accuracy) ≤ proj r * (1 / r.accuracy) :=
        mul_le_mul_of_nonneg_right hlo hr.le
      nlinarith
    · have : proj r * (1 / r.accuracy) ≤ hi * (1 / r.accuracy) :=
        mul_le_mul_of_nonneg_right hhi hr.le
      nlinarith

/-- C10: for a non-empty buffer whose accuracies are all positive,
`calculateSmoothedPosition` returns a confidence-weighted position whose
latitude and longitude each lie between the corresponding buffered minima
and maxima (stated via arbitrary common bounds), and it returns `null` on
an empty buffer instead of dividing by zero. -/
theorem calculateSmoothedPosition_convex :
    calculateSmoothedPosition [] = none ∧
    ∀ buffer : List PositionReading, buffer ≠ [] →
      (∀ r ∈ buffer, 0 < r.accuracy) →
      ∃ sm, calculateSmoothedPosition buffer = some sm ∧
        (∀ lo hi, (∀ r ∈ buffer, lo ≤ r.coords.latitude ∧ r.coords.latitude ≤ hi) →
          lo ≤ sm.coords.latitude ∧ sm.coords.latitude ≤ hi) ∧
        (∀ lo hi, (∀ r ∈ buffer, lo ≤ r.coords.longitude ∧ r.coords.longitude ≤ hi) →
          lo ≤ sm.coords.longitude ∧ sm.coords.longitude ≤ hi) := by
  constructor
  · rfl
  intro buffer hne hacc
  have hlen : ¬ buffer.length = 0 := by
    simpa using hne
  obtain ⟨htw, hlat, hlng⟩ := foldl_smoothStep_fields buffer ⟨0, 0, 0, none⟩
  have htwpos : 0 < (buffer.foldl smoothStep ⟨0, 0, 0, none⟩).totalWeight := by
    rw [htw]
    simpa using sum_weights_pos buffer hne hacc
  refine ⟨⟨⟨(buffer.foldl smoothStep ⟨0, 0, 0, none⟩).weightedLat /
      (buffer.foldl smoothStep ⟨0, 0, 0, none⟩).totalWeight,
      (buffer.foldl smoothStep ⟨0, 0, 0, none⟩).weightedLng /
      (buffer.foldl smoothStep ⟨0, 0, 0, none⟩).totalWeight⟩,
      (buffer.foldl smoothStep ⟨0, 0, 0, none⟩).bestAccuracy.getD 0⟩, ?_, ?_, ?_⟩
  · simp only [calculateSmoothedPosition, if_neg hlen]
  · intro lo hi hbound
    obtain ⟨h1, h2⟩ := weighted_sum_bounds (fun r => r.coords.latitude) lo hi
      buffer hacc hbound
    constructor
    · rw [le_div_iff₀ htwpos, htw, hlat]
      simpa [mul_comm] using h1
    · rw [div_le_iff₀ htwpos, htw, hlat]
      simpa [mul_comm] using h2
  · intro lo hi hbound
    obtain ⟨h1, h2⟩ := weighted_sum_bounds (fun r => r.coords.longitude) lo hi
      buffer hacc hbound
    constructor
    · rw [le_div_iff₀ htwpos, htw, hlng]
      simpa [mul_comm] using h1
    · rw [div_le_iff₀ htwpos, htw, hlng]
      simpa [mul_comm] using h2

theorem handleSuccess_buffer (s : HookState) (pos : PositionReading) :
    (handleSuccess s pos).positionBuffer = pushReading s.positionBuffer pos := by
  simp only [handleSuccess]
  split
  · rfl
  · split_ifs <;> rfl

theorem handleSuccess_gated (s : HookState) (pos : PositionReading) (p : Coordinates)
    (hlast : s.lastReportedPosition = some p)
    (hgate : ∀ sm, calculateSmoothedPosition (pushReading s.positionBuffer pos) = some sm →
      calculateDistance p sm.coords ≤ pos.accuracy * MOVEMENT_THRESHOLD_FACTOR) :
    (handleSuccess s pos).lastReportedPosition = some p ∧
    (handleSuccess s pos).position = s.position := by
  simp only [handleSuccess]
  split
  · exact ⟨hlast, rfl⟩
  · rename_i smoothed heq
    have hle := hgate smoothed heq
    rw [hlast]
    split_ifs with hcond
    · exfalso
      have h2 : calculateDistance p smoothed.coords >
          pos.accuracy * MOVEMENT_THRESHOLD_FACTOR := hcond
      linarith
    · exact ⟨rfl, rfl⟩

theorem handleSuccess_update (s : HookState) (pos : PositionReading) (p : Coordinates)
    (sm : SmoothedPosition) (hlast : s.lastReportedPosition = some p)
    (hsm : calculateSmoothedPosition (pushReading s.positionBuffer pos) = some sm)
    (hgt : calculateDistance p sm.coords > pos.accuracy * MOVEMENT_THRESHOLD_FACTOR) :
    (handleSuccess s pos).lastReportedPosition = some sm.coords ∧
    (handleSuccess s pos).position = some sm.coords := by
  simp only [handleSuccess]
  split
  · rename_i heq
    rw [hsm] at heq
    exact absurd heq (by simp)
  · rename_i smoothed heq
    rw [hsm] at heq
    obtain rfl : sm = smoothed := Option.some.inj heq
    rw [hlast]
    split_ifs with hcond
    · exact ⟨rfl, rfl⟩
    · exact absurd hgt hcond

theorem handleSuccess_first (s : HookState) (pos : PositionReading)
    (sm : SmoothedPosition) (hlast : s.lastReportedPosition = none)
    (hsm : calculateSmoothedPosition (pushReading s.positionBuffer pos) = some sm) :
    (handleSuccess s pos).lastReportedPosition = some sm.coords ∧
    (handleSuccess s pos).position = some sm.coords := by
  simp only [handleSuccess]
  split
  · rename_i heq
    rw [hsm] at heq
    exact absurd heq (by simp)
  · rename_i smoothed heq
    rw [hsm] at heq
    obtain rfl : sm = smoothed := Option.some.inj heq
    rw [hlast]
    split_ifs with hcond
    · exact ⟨rfl, rfl⟩
    · exact absurd trivial hcond

theorem handleSuccess_gated_foldl :
    ∀ (fixes : List PositionReading) (s : HookState) (p : Coordinates),
      s.lastReportedPosition = some p → withinGate p s.positionBuffer fixes →
      (fixes.foldl handleSuccess s).lastReportedPosition = some p ∧
      (fixes.foldl handleSuccess s).position = s.position := by
  intro fixes
  induction fixes with
  | nil =>
    intro s p h _
    exact ⟨h, rfl⟩
  | cons f fs ih =>
    intro s p hlast hgate
    obtain ⟨hg1, hg2⟩ := hgate
    simp only [List.foldl_cons]
    obtain ⟨hstep1, hstep2⟩ := handleSuccess_gated s f p hlast hg1
    have hbuf := handleSuccess_buffer s f
    obtain ⟨h1, h2⟩ := ih (handleSuccess s f) p hstep1 (by rw [hbuf]; exact hg2)
    exact ⟨h1, by rw [h2, hstep2]⟩

/-- C4: during continuous tracking a smoothed position overwrites the
reported position exactly per the movement gate: a sequence of fixes whose
smoothed positions all stay within `fix.accuracy × 0.5` meters of the last
reported position leaves the reported position unchanged; a smoothed
position beyond that threshold updates it; and the very first fix (no
prior reported position) always sets it. -/
theorem movement_gating :
    (∀ (s : HookState) (p : Coordinates) (fixes : List PositionReading),
      s.lastReportedPosition = some p → withinGate p s.positionBuffer fixes →
      (fixes.foldl handleSuccess s).lastReportedPosition = some p ∧
      (fixes.foldl handleSuccess s).position = s.position) ∧
    (∀ (s : HookState) (pos : PositionReading) (p : Coordinates)
        (sm : SmoothedPosition),
      s.lastReportedPosition = some p →
      calculateSmoothedPosition (pushReading s.positionBuffer pos) = some sm →
      calculateDistance p sm.coords > pos.accuracy * MOVEMENT_THRESHOLD_FACTOR →
      (handleSuccess s pos).lastReportedPosition = some sm.coords ∧
      (handleSuccess s pos).position = some sm.coords) ∧
    (∀ (s : HookState) (pos : PositionReading) (sm : SmoothedPosition),
      s.lastReportedPosition = none →
      calculateSmoothedPosition (pushReading s.positionBuffer pos) = some sm →
      (handleSuccess s pos).lastReportedPosition = some sm.coords ∧
      (handleSuccess s pos).position = some sm.coords) :=
  ⟨fun s p fixes h1 h2 => handleSuccess_gated_foldl fixes s p h1 h2,
   fun s pos p sm h1 h2 h3 => handleSuccess_update s pos p sm h1 h2 h3,
   fun s pos sm h1 h2 => handleSuccess_first s pos sm h1 h2⟩

theorem pushReading_nil (pos : PositionReading) : pushReading [] pos = [pos] := by
  norm_num [pushReading, POSITION_BUFFER_SIZE]

theorem pushReading_one (a pos : PositionReading) :
    pushReading [a] pos = [a, pos] := by
  norm_num [pushReading, POSITION_BUFFER_SIZE]

theorem smoothed_single :
    calculateSmoothedPosition [⟨⟨0, 0⟩, 1, 0⟩] = some ⟨⟨0, 0⟩, 1⟩ := by
  norm_num [calculateSmoothedPosition, smoothStep, Option.getD]

theorem smoothed_pair :
    calculateSmoothedPosition [⟨⟨0, 0⟩, 1, 0⟩, ⟨⟨0, 1⟩, 1, 0⟩] =
      some ⟨⟨0, 1 / 2⟩, 1⟩ := by
  norm_num [calculateSmoothedPosition, smoothStep, Option.getD]

/-- C3 (amended): `startTracking` replaces any existing sensor watch and
sets the tracking flags, but it does not clear the `SmoothingBuffer`, and
neither does `stopTracking`; fixes buffered during a previous tracking
session remain in the buffer and can contribute to positions reported in
the new session until evicted by newer fixes. -/
theorem startTracking_preserves_buffer :
    ∀ (s : HookState) (n : ℕ),
      (startTracking s n).positionBuffer = s.positionBuffer ∧
      (startTracking s n).watchId = some n ∧
      (startTracking s n).isTracking = true ∧
      (stopTracking s).positionBuffer = s.positionBuffer :=
  fun _ _ => ⟨rfl, rfl, rfl, rfl⟩

/-- C3 counterexample: a concrete two-session run.  Session one delivers a
fix at (0, 0); tracking is stopped and restarted; the restarted session's
buffer still holds the old fix, and the first fix of the new session, at
(0, 1), is smoothed against it, so the newly reported position is
(0, 0.5) — not (0, 1), the value a cleared buffer would report.  This
falsifies the claim that `startTracking` clears the buffer and that no
previously buffered fix contributes to positions of the new session. -/
theorem startTracking_stale_buffer_counterexample :
    (startTracking (stopTracking (handleSuccess (startTracking initialHookState 0)
        ⟨⟨0, 0⟩, 1, 0⟩)) 1).positionBuffer = [⟨⟨0, 0⟩, 1, 0⟩] ∧
    ([⟨⟨0, 0⟩, 1, 0⟩] : List PositionReading) ≠ [] ∧
    (handleSuccess (startTracking (stopTracking (handleSuccess
        (startTracking initialHookState 0) ⟨⟨0, 0⟩, 1, 0⟩)) 1)
        ⟨⟨0, 1⟩, 1, 0⟩).position = some ⟨0, 1 / 2⟩ ∧
    (⟨0, 1 / 2⟩ : Coordinates) ≠ ⟨0, 1⟩ := by
  have hsm1 : calculateSmoothedPosition (pushReading
      (startTracking initialHookState 0).positionBuffer ⟨⟨0, 0⟩, 1, 0⟩) =
      some ⟨⟨0, 0⟩, 1⟩ := by
    rw [show (startTracking initialHookState 0).positionBuffer = [] from rfl,
      pushReading_nil]
    exact smoothed_single
  have hbufT : (startTracking (stopTracking (handleSuccess
      (startTracking initialHookState 0) ⟨⟨0, 0⟩, 1, 0⟩)) 1).positionBuffer =
      [⟨⟨0, 0⟩, 1, 0⟩] := by
    show (handleSuccess (startTracking initialHookState 0)
      ⟨⟨0, 0⟩, 1, 0⟩).positionBuffer = _
    rw [handleSuccess_buffer,
      show (startTracking initialHookState 0).positionBuffer = [] from rfl,
      pushReading_nil]
  have hlastT : (startTracking (stopTracking (handleSuccess
      (startTracking initialHookState 0) ⟨⟨0, 0⟩, 1, 0⟩)) 1).lastReportedPosition =
      some ⟨0, 0⟩ := by
    show (handleSuccess (startTracking initialHookState 0)
      ⟨⟨0, 0⟩, 1, 0⟩).lastReportedPosition = _
    exact (handleSuccess_first _ _ ⟨⟨0, 0⟩, 1⟩ rfl hsm1).1
  have hsm2 : calculateSmoothedPosition (pushReading (startTracking (stopTracking
      (handleSuccess (startTracking initialHookState 0) ⟨⟨0, 0⟩, 1, 0⟩))
        1).positionBuffer ⟨⟨0, 1⟩, 1, 0⟩) = some ⟨⟨0, 1 / 2⟩, 1⟩ := by
    rw [hbufT, pushReading_one]
    exact smoothed_pair
  have hgt : calculateDistance ⟨0, 0⟩ (⟨⟨0, 1 / 2⟩, 1⟩ : SmoothedPosition).coords >
      (⟨⟨0, 1⟩, 1, 0⟩ : PositionReading).accuracy * MOVEMENT_THRESHOLD_FACTOR :=
    calculateDistance_half_degree_gt
  refine ⟨hbufT, by simp, ?_, ?_⟩
  · exact (handleSuccess_update _ _ ⟨0, 0⟩ ⟨⟨0, 1 / 2⟩, 1⟩ hlastT hsm2 hgt).2
  · intro h
    have hlong := congrArg Coordinates.longitude h
    norm_num at hlong

/-- C4 witness: concrete runs of each clause of the movement gate.  A fix
whose smoothed position coincides with the last reported position (both at
(0, 0), accuracy 1) leaves the reported position unchanged; a smoothed
position ≈ 55.6 km away (well beyond `1 × 0.5` m) updates it; the very
first fix sets it. -/
theorem movement_gating_witness :
    (([⟨⟨0, 0⟩, 1, 0⟩] : List PositionReading).foldl handleSuccess
      { initialHookState with
          lastReportedPosition := some ⟨0, 0⟩,
          position := some ⟨0, 0⟩ }).position = some ⟨0, 0⟩ ∧
    (handleSuccess { initialHookState with
                      positionBuffer := [⟨⟨0, 0⟩, 1, 0⟩],
                      lastReportedPosition := some ⟨0, 0⟩ }
      ⟨⟨0, 1⟩, 1, 0⟩).position = some ⟨0, 1 / 2⟩ ∧
    (handleSuccess initialHookState ⟨⟨0, 0⟩, 1, 0⟩).position = some ⟨0, 0⟩ := by
  refine ⟨?_, ?_, ?_⟩
  · have hgate : withinGate ⟨0, 0⟩
        ({ initialHookState with
             lastReportedPosition := some ⟨0, 0⟩,
             position := some ⟨0, 0⟩ } : HookState).positionBuffer
        [⟨⟨0, 0⟩, 1, 0⟩] := by
      refine ⟨?_, trivial⟩
      intro sm hsm
      rw [show ({ initialHookState with
                    lastReportedPosition := some ⟨0, 0⟩,
                    position := some ⟨0, 0⟩ } : HookState).positionBuffer = []
          from rfl,
        pushReading_nil, smoothed_single] at hsm
      obtain rfl : (⟨⟨0, 0⟩, 1⟩ : SmoothedPosition) = sm := Option.some.inj hsm
      show calculateDistance ⟨0, 0⟩ ⟨0, 0⟩ ≤ 1 * MOVEMENT_THRESHOLD_FACTOR
      rw [calculateDistance_self]
      norm_num [MOVEMENT_THRESHOLD_FACTOR]
    have h := (movement_gating.1 _ ⟨0, 0⟩ [⟨⟨0, 0⟩, 1, 0⟩] rfl hgate).2
    rw [h]
  · have h := movement_gating.2.1 _ ⟨⟨0, 1⟩, 1, 0⟩ ⟨0, 0⟩ ⟨⟨0, 1 / 2⟩, 1⟩ rfl
      (by
        rw [show ({ initialHookState with
                      positionBuffer := [⟨⟨0, 0⟩, 1, 0⟩],
                      lastReportedPosition := some ⟨0, 0⟩ }
              : HookState).positionBuffer = [⟨⟨0, 0⟩, 1, 0⟩] from rfl,
          pushReading_one]
        exact smoothed_pair)
      calculateDistance_half_degree_gt
    exact h.2
  · have h := movement_gating.2.2 initialHookState ⟨⟨0, 0⟩, 1, 0⟩ ⟨⟨0, 0⟩, 1⟩ rfl
      (by
        rw [show initialHookState.positionBuffer = [] from rfl, pushReading_nil]
        exact smoothed_single)
    exact h.2

/-- C10 witness: for a concrete two-fix buffer at (0, 0) and (10, 20) with
accuracy 1 each, the smoothed position exists and its coordinates lie
within the buffered bounds. -/
theorem calculateSmoothedPosition_convex_witness :
    ∃ sm, calculateSmoothedPosition [⟨⟨0, 0⟩, 1, 0⟩, ⟨⟨10, 20⟩, 1, 0⟩] = some sm ∧
      0 ≤ sm.coords.latitude ∧ sm.coords.latitude ≤ 10 ∧
      0 ≤ sm.coords.longitude ∧ sm.coords.longitude ≤ 20 := by
  obtain ⟨sm, hsm, hlat, hlng⟩ := calculateSmoothedPosition_convex.2
    [⟨⟨0, 0⟩, 1, 0⟩, ⟨⟨10, 20⟩, 1, 0⟩] (by simp)
    (by
      intro r hr
      rcases List.mem_cons.mp hr with rfl | hr2
      · norm_num
      rcases List.mem_cons.mp hr2 with rfl | hr3
      · norm_num
      · simp at hr3)
  obtain ⟨h1, h2⟩ := hlat 0 10 (by
    intro r hr
    rcases List.mem_cons.mp hr with rfl | hr2
    · norm_num
    rcases List.mem_cons.mp hr2 with rfl | hr3
    · norm_num
    · simp at hr3)
  obtain ⟨h3, h4⟩ := hlng 0 20 (by
    intro r hr
    rcases List.mem_cons.mp hr with rfl | hr2
    · norm_num
    rcases List.mem_cons.mp hr2 with rfl | hr3
    · norm_num
    · simp at hr3)
  exact ⟨sm, hsm, h1, h2, h3, h4⟩
